import Mathlib

/-!
Verification of `molecule/provisioner/ansible.py` (the `Ansible` provisioner
class): inventory construction, configuration merging, host/group variable
file writing and config-template rendering, embedded shallowly in Lean.

Python dictionaries are modelled as insertion-ordered association lists
`List (String × α)` with the update-in-place / append-at-end semantics of
CPython dict assignment, and YAML/JSON-like values as the inductive `JVal`.
Filesystem writes are modelled as explicit effect lists.
-/

namespace Molecule

/-- Values stored in molecule configuration mappings (YAML scalars and
nested mappings), as manipulated by `ansible.py`. -/
inductive JVal where
  | obj : List (String × JVal) → JVal
  | str : String → JVal
  | bool : Bool → JVal
  | int : Int → JVal
  | null : JVal
deriving Repr

/-- Python dict lookup `d.get(k)` on an insertion-ordered association list. -/
def alookup {α : Type} : List (String × α) → String → Option α
  | [], _ => none
  | (k', v) :: rest, k => if k' = k then some v else alookup rest k

/-- Python `d.pop(k)` (the removal part): drop the binding of `k`. -/
def removeKey {α : Type} : List (String × α) → String → List (String × α)
  | [], _ => []
  | (k', v) :: rest, k => if k' = k then rest else (k', v) :: removeKey rest k

/-- Python defaultdict-style update: `d[k] = f(d[k])` where a missing key is
first vivified with default `dflt`.  Assignment to an existing key updates
the value in place (keeping its position); a new key is appended at the end,
matching CPython dict insertion order. -/
def updateA {α : Type} : List (String × α) → String → α → (α → α) → List (String × α)
  | [], k, dflt, f => [(k, f dflt)]
  | (k', v) :: rest, k, dflt, f =>
      if k' = k then (k, f v) :: rest else (k', v) :: updateA rest k dflt f

/-- Python dict assignment `d[k] = v`. -/
def pyInsert {α : Type} (d : List (String × α)) (k : String) (v : α) : List (String × α) :=
  updateA d k v (fun _ => v)

mutual
/-- Modelled from the spec: `Config.merge_dicts` lives in `molecule/config.py`,
which is not part of the provided source; §4.2 of the spec describes it as a
recursive dictionary merge.  This is the merge of two single values: when both
are mappings the merge recurses, otherwise the override value wins. -/
def mergeVal : JVal → JVal → JVal
  | JVal.obj d, JVal.obj o => JVal.obj (mergeList d o)
  | _, o => o

/-- Modelled from the spec: the mapping-level merge of `Config.merge_dicts`.
Keys present only in `overrides` are added, keys present in both are merged
with `mergeVal`, and keys present only in `defaults` are kept. -/
def mergeList : List (String × JVal) → List (String × JVal) → List (String × JVal)
  | [], o => o
  | (k, v) :: rest, o =>
      match alookup o k with
      | some ov => (k, mergeVal v ov) :: mergeList rest (removeKey o k)
      | none => (k, v) :: mergeList rest o
end

/-- The pieces of the Molecule config object that `Ansible` reads:
`self._config.molecule_file`, `self._config.ephemeral_directory`,
`self._config.scenario.directory`, `self._config.scenario.name` and
`self._config.driver.instance_config`. -/
structure MoleculeCfg where
  moleculeFile : String
  ephemeralDirectory : String
  scenarioDirectory : String
  scenarioName : String
  instanceConfig : String

/-- A platform record from `molecule.yml`: the fields read by
`Ansible.inventory` (`platform['name']`, `platform.get('groups', ...)`,
`platform.get('children', ...)`).  `none` models an absent key. -/
structure Platform where
  name : String
  groups : Option (List String)
  children : Option (List String)

/-- Connection options returned by `driver.connection_options(name)`. -/
abbrev ConnOpts : Type := List (String × JVal)

/-- One group entry of the vivified inventory dict: the `hosts`, `vars` and
`children` sub-dicts that `Ansible.inventory` assigns into.  A sub-dict the
code never touched is the vivified empty mapping. -/
structure GroupEntry where
  hosts : List (String × ConnOpts)
  vars : List (String × String)
  children : List (String × List (String × ConnOpts))

/-- The vivified default for a group entry: all sub-dicts empty. -/
def emptyGroup : GroupEntry := ⟨[], [], []⟩

/-- The inventory dict: group name to group entry, insertion ordered. -/
abbrev Inventory : Type := List (String × GroupEntry)

/-- Embeds `dd[group]['hosts'][instance_name] = connection_options`. -/
def setHost (inv : Inventory) (g n : String) (opts : ConnOpts) : Inventory :=
  updateA inv g emptyGroup (fun e => { e with hosts := pyInsert e.hosts n opts })

/-- Embeds the unconditional `dd['ungrouped']['vars'] = {...}` assignment. -/
def setUngroupedVars (inv : Inventory) (vs : List (String × String)) : Inventory :=
  updateA inv "ungrouped" emptyGroup (fun e => { e with vars := vs })

/-- Embeds `dd[group]['children'][child_group]['hosts'][name] = opts`. -/
def setChildHost (inv : Inventory) (g c n : String) (opts : ConnOpts) : Inventory :=
  updateA inv g emptyGroup (fun e =>
    { e with children := updateA e.children c [] (fun hs => pyInsert hs n opts) })

/-- Embeds `platform.get('groups', ['ungrouped'])`. -/
def effGroups (p : Platform) : List String := p.groups.getD ["ungrouped"]

/-- Embeds `platform.get('children', [])`. -/
def effChildren (p : Platform) : List String := p.children.getD []

/-- Embeds `Ansible.inventory_file`: `os.path.join(ephemeral_directory,
'ansible_inventory.yml')`. -/
def inventory_file (cfg : MoleculeCfg) : String :=
  cfg.ephemeralDirectory ++ "/ansible_inventory.yml"

/-- The fixed vars mapping assigned to `dd['ungrouped']['vars']` on every
loop iteration of `Ansible.inventory`. -/
def ungroupedVars (cfg : MoleculeCfg) : List (String × String) :=
  [("molecule_file", cfg.moleculeFile),
   ("molecule_inventory_file", inventory_file cfg),
   ("molecule_scenario_directory", cfg.scenarioDirectory),
   ("molecule_instance_config", cfg.instanceConfig)]

/-- The body of the inner `for group in platform.get('groups', ...)` loop of
`Ansible.inventory`: assign the host under the group, overwrite the
ungrouped vars, then assign the host under each declared child group of the
platform. -/
def addGroup (cfg : MoleculeCfg) (co : String → ConnOpts) (p : Platform)
    (inv : Inventory) (g : String) : Inventory :=
  let inv2 := setHost inv g p.name (co p.name)
  let inv3 := setUngroupedVars inv2 (ungroupedVars cfg)
  (effChildren p).foldl (fun inv4 c => setChildHost inv4 g c p.name (co p.name)) inv3

/-- The body of the outer `for platform in ...` loop of `Ansible.inventory`:
run `addGroup` for every group of the platform. -/
def addPlatform (cfg : MoleculeCfg) (co : String → ConnOpts) (inv : Inventory)
    (p : Platform) : Inventory :=
  (effGroups p).foldl (addGroup cfg co p) inv

/-- Embeds the `Ansible.inventory` property: starting from the empty
vivified dict, process every platform of
`self._config.platforms.instances_with_scenario_name`.  The driver's
`connection_options` is the abstract function `co`. -/
def inventory (cfg : MoleculeCfg) (co : String → ConnOpts)
    (platforms : List Platform) : Inventory :=
  platforms.foldl (addPlatform cfg co) []

/-- Host lookup inside an inventory: `inv[g]['hosts'][n]` when present. -/
def hostLookup (inv : Inventory) (g n : String) : Option ConnOpts :=
  (alookup inv g).bind (fun e => alookup e.hosts n)

/-- Child-group host lookup: `inv[g]['children'][c]['hosts'][n]`. -/
def childLookup (inv : Inventory) (g c n : String) : Option ConnOpts :=
  (alookup inv g).bind (fun e =>
    (alookup e.children c).bind (fun hs => alookup hs n))

/-- The fatal message of `Ansible._verify_inventory`. -/
def missingMsg : String :=
  "Instances missing from the \x27platform\x27 section of molecule.yml."

/-- Embeds `Ansible.write_inventory`: `_verify_inventory` exits fatally when
the inventory dict is falsy (no groups); otherwise the inventory is
serialized (by the external `util.safe_dump`, abstracted as `dump`) and
written to the inventory file.  The writing of a file is modelled by
returning the path and content. -/
def write_inventory (cfg : MoleculeCfg) (co : String → ConnOpts)
    (platforms : List Platform) (dump : Inventory → String) :
    Except String (String × String) :=
  let inv := inventory cfg co platforms
  if inv.isEmpty then Except.error missingMsg
  else Except.ok (inventory_file cfg, dump inv)

/-- Python truthiness of a configuration value, as used by
`if self._config.args.get('debug'):`. -/
def truthy : JVal → Bool
  | JVal.obj l => !l.isEmpty
  | JVal.str s => !(s == "")
  | JVal.bool b => b
  | JVal.int n => n != 0
  | JVal.null => false

/-- Truthiness of `d.get(k)`: a missing key is `None`, which is falsy. -/
def optTruthy : Option JVal → Bool
  | some v => truthy v
  | none => false

/-- Embeds `Ansible.default_options`: start from `{}` and set
`d['debug'] = True` when the CLI args contain a truthy `debug` value. -/
def default_options (args : List (String × JVal)) : List (String × JVal) :=
  if optTruthy (alookup args "debug") then [("debug", JVal.bool true)] else []

/-- Embeds `Ansible.options`: `merge_dicts(default_options,
config['provisioner']['options'])`. -/
def options (args userOpts : List (String × JVal)) : List (String × JVal) :=
  mergeList (default_options args) userOpts

/-- Modelled from the spec: `util.instance_with_scenario_name` lives in
`molecule/util.py`, which is not part of the provided source; per §4.3 the
instance name is suffixed with the scenario name as `<instance>-<scenario>`. -/
def instance_with_scenario_name (instanceName scenarioName : String) : String :=
  instanceName ++ "-" ++ scenarioName

/-- One iteration of the key-rewriting loop in `Ansible.add_or_update_vars`:
`vars_target[instance_with_scenario_name] = vars_target.pop(instance_name)`.
The pop removes the binding; the assignment updates an existing key in place
or appends a new one. -/
def rewriteStep (s : String) (vt : List (String × JVal)) (k : String) :
    List (String × JVal) :=
  match alookup vt k with
  | some v => pyInsert (removeKey vt k) (instance_with_scenario_name k s) v
  | none => vt

/-- The host-vars branch of `Ansible.add_or_update_vars`: deep-copy the
stored `host_vars`, then rewrite each of its top-level keys (iterating over
the original, unmutated `self.host_vars`). -/
def rewriteKeys (hostVars : List (String × JVal)) (s : String) :
    List (String × JVal) :=
  hostVars.foldl (fun vt kv => rewriteStep s vt kv.1) hostVars

/-- The two valid arguments of `Ansible.add_or_update_vars`. -/
inductive VarsTarget where
  | host_vars : VarsTarget
  | group_vars : VarsTarget

/-- The directory name chosen by `add_or_update_vars` for a target. -/
def targetDirName : VarsTarget → String
  | VarsTarget.host_vars => "host_vars"
  | VarsTarget.group_vars => "group_vars"

/-- A filesystem side effect of `add_or_update_vars`. -/
inductive FsEffect where
  | mkdir : String → FsEffect
  | write : String → String → FsEffect
deriving Repr

/-- Embeds `Ansible.add_or_update_vars`: compute `vars_target` (a rewritten
deep copy of `host_vars`, or `group_vars` as-is), return immediately when it
is empty, otherwise create the target directory when absent (`dirExists`
models `os.path.isdir`) and write one serialized file per key.  The external
`util.safe_dump` is abstracted as `dump`; effects are returned in program
order. -/
def add_or_update_vars (cfg : MoleculeCfg) (hostVars groupVars : List (String × JVal))
    (dump : JVal → String) (dirExists : Bool) (target : VarsTarget) :
    List FsEffect :=
  let varsTarget :=
    match target with
    | VarsTarget.host_vars => rewriteKeys hostVars cfg.scenarioName
    | VarsTarget.group_vars => groupVars
  if varsTarget.isEmpty then []
  else
    let dir := cfg.ephemeralDirectory ++ "/" ++ targetDirName target
    (if dirExists then [] else [FsEffect.mkdir dir]) ++
      varsTarget.map (fun kv => FsEffect.write (dir ++ "/" ++ kv.1) (dump kv.2))

/-- The post-call stored `host_vars` together with the effects of one call of
`add_or_update_vars('host_vars')`.  The code deep-copies `self.host_vars`
into `vars_target` and mutates only the copy, so the stored configuration
mapping is returned unchanged. -/
def add_or_update_host_vars_call (cfg : MoleculeCfg)
    (hostVars : List (String × JVal)) (dump : JVal → String) (dirExists : Bool) :
    List (String × JVal) × List FsEffect :=
  (hostVars, add_or_update_vars cfg hostVars [] dump dirExists VarsTarget.host_vars)

/-- Python `str()` of a scalar configuration value, as interpolated by the
config template placeholders; the boolean false renders as `False`. -/
def pyStr : JVal → String
  | JVal.str s => s
  | JVal.bool true => "True"
  | JVal.bool false => "False"
  | JVal.int n => toString n
  | JVal.null => "None"
  | JVal.obj _ => ""

/-- The `key = value` lines which the inner loop of the template of
`Ansible._get_config_template` renders for one section. -/
def sectionLines : List (String × JVal) → String
  | [] => ""
  | kv :: rest => kv.1 ++ " = " ++ pyStr kv.2 ++ "\n" ++ sectionLines rest

/-- Embeds the rendering of `Ansible._get_config_template` by
`util.render_template` (Jinja2) in `Ansible.write_config`: for each section
of `config_options` emit a `[section]` header line then one `key = value`
line per entry; the `-%}` markers of the template trim the whitespace after
every tag, so no blank separators are produced. -/
def renderConfigTemplate : List (String × List (String × JVal)) → String
  | [] => ""
  | sec :: rest => "[" ++ sec.1 ++ "]\n" ++ sectionLines sec.2 ++ renderConfigTemplate rest

/-- A concrete Molecule config fixture for witnesses and counterexamples. -/
def cfgEx : MoleculeCfg :=
  ⟨"/project/molecule.yml", "/project/.molecule", "/project/default", "default",
   "/project/.molecule/instance_config.yml"⟩

/-- A concrete driver `connection_options` fixture. -/
def coEx : String → ConnOpts := fun _ => [("ansible_connection", JVal.str "docker")]

/-- A concrete serializer fixture standing in for `util.safe_dump`. -/
def dumpInvEx : Inventory → String := fun _ => "serialized-inventory"

/-- A concrete serializer fixture for variable mappings. -/
def dumpEx : JVal → String
  | JVal.str s => s
  | _ => "serialized"

/-- The key-rewriting result predicted by the spec: every key suffixed with
the scenario name, values and order preserved. -/
def suffixKeys (hv : List (String × JVal)) (s : String) : List (String × JVal) :=
  hv.map (fun kv => (instance_with_scenario_name kv.1 s, kv.2))

/-- Fixture: a platform with no `groups` and no `children` key. -/
def pEx1 : Platform := ⟨"instance-1", none, none⟩

/-- Fixture: a platform with an explicitly empty `groups` list. -/
def pEmptyGroups : Platform := ⟨"instance-1", some [], none⟩

/-- Fixture: the two-platform example of spec §8.4. -/
def platformsC6 : List Platform :=
  [⟨"instance-1", some ["web"], none⟩, ⟨"instance-2", some ["web", "db"], none⟩]

/-- Fixture: a platform with one group and one child group. -/
def pChild : Platform := ⟨"instance-3", some ["web"], some ["kids"]⟩

/-- Fixture: a platform with one explicit group and no children. -/
def pC7 : Platform := ⟨"instance-1", some ["web"], none⟩

/-- Fixture: defaults mapping for the merge witness. -/
def dC3 : List (String × JVal) :=
  [("defaults", JVal.obj [("retry_files_enabled", JVal.bool false),
                          ("roles_path", JVal.str "x")]),
   ("extra", JVal.int 1)]

/-- Fixture: overrides mapping for the merge witness. -/
def oC3 : List (String × JVal) :=
  [("defaults", JVal.obj [("roles_path", JVal.str "y")]),
   ("new", JVal.bool true)]

/-- Lookup after `updateA` at the updated key. -/
theorem alookup_updateA_eq {α : Type} (l : List (String × α)) (k : String) (dflt : α)
    (f : α → α) : alookup (updateA l k dflt f) k = some (f ((alookup l k).getD dflt)) := by
  induction l with
  | nil => simp [updateA, alookup]
  | cons hd tl ih =>
    obtain ⟨k', v⟩ := hd
    by_cases h : k' = k
    · simp [updateA, alookup, h]
    · simp [updateA, alookup, h, ih]

/-- Lookup after `updateA` at a different key. -/
theorem alookup_updateA_ne {α : Type} (l : List (String × α)) {k k' : String} (dflt : α)
    (f : α → α) (h : k' ≠ k) : alookup (updateA l k dflt f) k' = alookup l k' := by
  induction l with
  | nil =>
    simp only [updateA, alookup, if_neg (fun hh : k = k' => h hh.symm)]
  | cons hd tl ih =>
    obtain ⟨k'', v⟩ := hd
    by_cases h2 : k'' = k
    · subst h2
      simp only [updateA, if_pos rfl, alookup, if_neg (fun hh : k'' = k' => h hh.symm)]
    · simp only [updateA, if_neg h2, alookup]
      by_cases h3 : k'' = k'
      · simp [h3]
      · simp [h3, ih]

/-- Lookup after a Python dict assignment at the assigned key. -/
theorem alookup_pyInsert_eq {α : Type} (l : List (String × α)) (k : String) (v : α) :
    alookup (pyInsert l k v) k = some v := by
  simp [pyInsert, alookup_updateA_eq]

/-- Lookup after a Python dict assignment at a different key. -/
theorem alookup_pyInsert_ne {α : Type} (l : List (String × α)) {k k' : String} (v : α)
    (h : k' ≠ k) : alookup (pyInsert l k v) k' = alookup l k' :=
  alookup_updateA_ne l v _ h

/-- Removal does not change lookups at other keys. -/
theorem alookup_removeKey_ne {α : Type} (l : List (String × α)) {k k' : String}
    (h : k' ≠ k) : alookup (removeKey l k) k' = alookup l k' := by
  induction l with
  | nil => simp [removeKey]
  | cons hd tl ih =>
    obtain ⟨k'', v⟩ := hd
    by_cases h2 : k'' = k
    · subst h2
      have hne : ¬ k'' = k' := fun hh => h hh.symm
      simp [removeKey, alookup, hne]
    · simp only [removeKey, if_neg h2, alookup]
      by_cases h3 : k'' = k'
      · simp [h3]
      · simp [h3, ih]

/-- Merging with an empty override mapping returns the defaults unchanged. -/
theorem mergeList_nil_right (d : List (String × JVal)) : mergeList d [] = d := by
  induction d with
  | nil => rfl
  | cons hd tl ih =>
    obtain ⟨k, v⟩ := hd
    simp [mergeList, alookup, ih]

/-- Merging an empty defaults mapping returns the overrides unchanged. -/
theorem mergeList_nil_left (o : List (String × JVal)) : mergeList [] o = o := rfl

/-- At a key present in both mappings the merge stores `mergeVal` of the two
values. -/
theorem alookup_mergeList_both {d o : List (String × JVal)} {k : String} {v ov : JVal}
    (hd : alookup d k = some v) (ho : alookup o k = some ov) :
    alookup (mergeList d o) k = some (mergeVal v ov) := by
  induction d generalizing o with
  | nil => simp [alookup] at hd
  | cons hdp tl ih =>
    obtain ⟨k', v'⟩ := hdp
    by_cases h : k' = k
    · subst h
      simp only [alookup, if_pos rfl] at hd
      cases hd
      simp [mergeList, ho, alookup]
    · simp only [alookup, if_neg h] at hd
      simp only [mergeList]
      cases hov : alookup o k' with
      | some w =>
        simp only [alookup, if_neg h]
        exact ih hd (by rw [alookup_removeKey_ne _ (fun hh => h hh.symm), ho])
      | none =>
        simp only [alookup, if_neg h]
        exact ih hd ho

/-- At a key absent from the overrides the merge keeps the defaults value. -/
theorem alookup_mergeList_left {d o : List (String × JVal)} {k : String}
    (ho : alookup o k = none) : alookup (mergeList d o) k = alookup d k := by
  induction d generalizing o with
  | nil => simp [mergeList, alookup, ho]
  | cons hdp tl ih =>
    obtain ⟨k', v'⟩ := hdp
    simp only [mergeList]
    by_cases h : k' = k
    · subst h
      simp [alookup, ho, mergeList]
    · cases hov : alookup o k' with
      | some w =>
        simp only [alookup, if_neg h]
        exact ih (by rw [alookup_removeKey_ne _ (fun hh => h hh.symm)]; exact ho)
      | none =>
        simp only [alookup, if_neg h]
        exact ih ho

/-- At a key absent from the defaults the merge exposes the overrides value. -/
theorem alookup_mergeList_right {d o : List (String × JVal)} {k : String}
    (hd : alookup d k = none) : alookup (mergeList d o) k = alookup o k := by
  induction d generalizing o with
  | nil => simp [mergeList]
  | cons hdp tl ih =>
    obtain ⟨k', v'⟩ := hdp
    simp only [alookup] at hd
    by_cases h : k' = k
    · simp [h] at hd
    · simp only [if_neg h] at hd
      simp only [mergeList]
      cases hov : alookup o k' with
      | some w =>
        simp only [alookup, if_neg h]
        rw [ih hd, alookup_removeKey_ne _ (fun hh => h hh.symm)]
      | none =>
        simp only [alookup, if_neg h]
        exact ih hd

/-- Folding preserves any invariant each step preserves. -/
theorem foldl_preserve {σ β : Type} (f : σ → β → σ) (P : σ → Prop)
    (l : List β) (s : σ) (h : ∀ s' x, P s' → P (f s' x)) (hs : P s) :
    P (l.foldl f s) := by
  induction l generalizing s with
  | nil => exact hs
  | cons x xs ih => exact ih _ (h s x hs)

/-- Folding over a list containing `x` makes `P` hold when processing `x`
establishes `P` from any state and every step preserves `P`. -/
theorem foldl_establish {σ β : Type} (f : σ → β → σ) (P : σ → Prop) (x : β)
    (l : List β) (s : σ) (hx : x ∈ l) (hest : ∀ s', P (f s' x))
    (hpres : ∀ s' y, P s' → P (f s' y)) : P (l.foldl f s) := by
  induction l generalizing s with
  | nil => cases hx
  | cons y ys ih =>
    rcases List.mem_cons.mp hx with hxy | hxs
    · subst hxy
      exact foldl_preserve f P ys (f s x) hpres (hest s)
    · exact ih (f s y) hxs

/-- A dict with a successful host lookup is non-empty. -/
theorem ne_nil_of_hostLookup {inv : Inventory} {g n : String} {v : ConnOpts}
    (h : hostLookup inv g n = some v) : inv ≠ [] := by
  intro hn
  subst hn
  simp [hostLookup, alookup] at h

/-- Setting a host makes it retrievable. -/
theorem hostLookup_setHost_self (inv : Inventory) (g n : String) (opts : ConnOpts) :
    hostLookup (setHost inv g n opts) g n = some opts := by
  unfold hostLookup setHost
  rw [alookup_updateA_eq]
  simp [alookup_pyInsert_eq]

/-- Setting any host with its canonical connection options preserves every
canonical host fact already present. -/
theorem hostLookup_setHost_canon {inv : Inventory} {g n : String}
    {co : String → ConnOpts} (g' n' : String)
    (h : hostLookup inv g n = some (co n)) :
    hostLookup (setHost inv g' n' (co n')) g n = some (co n) := by
  by_cases hg : g = g'
  · subst hg
    unfold hostLookup setHost
    unfold hostLookup at h
    rw [alookup_updateA_eq]
    cases he : alookup inv g with
    | none => rw [he] at h; simp at h
    | some e =>
      rw [he] at h
      simp only [Option.some_bind] at h
      simp only [Option.getD_some, Option.some_bind]
      by_cases hn : n = n'
      · subst hn
        rw [alookup_pyInsert_eq]
      · rw [alookup_pyInsert_ne _ _ hn]
        exact h
  · unfold hostLookup setHost
    unfold hostLookup at h
    rw [alookup_updateA_ne _ _ _ hg]
    exact h

/-- Updating a group entry without touching its hosts leaves all host
lookups unchanged. -/
theorem hostLookup_hosts_eq {f : GroupEntry → GroupEntry}
    (hf : ∀ e, (f e).hosts = e.hosts) (inv : Inventory) (g' g n : String) :
    hostLookup (updateA inv g' emptyGroup f) g n = hostLookup inv g n := by
  unfold hostLookup
  by_cases hg : g = g'
  · subst hg
    rw [alookup_updateA_eq]
    cases he : alookup inv g with
    | none => simp [hf, emptyGroup, alookup]
    | some e => simp [hf]
  · rw [alookup_updateA_ne _ _ _ hg]

/-- Host lookups pass through `setUngroupedVars`. -/
theorem hostLookup_setUngroupedVars (inv : Inventory) (vs : List (String × String))
    (g n : String) : hostLookup (setUngroupedVars inv vs) g n = hostLookup inv g n := by
  unfold setUngroupedVars
  apply hostLookup_hosts_eq
  intro e
  rfl

/-- Host lookups pass through `setChildHost`. -/
theorem hostLookup_setChildHost (inv : Inventory) (g' c n' g n : String)
    (opts : ConnOpts) :
    hostLookup (setChildHost inv g' c n' opts) g n = hostLookup inv g n := by
  unfold setChildHost
  apply hostLookup_hosts_eq
  intro e
  rfl

/-- Updating a group entry without touching its children leaves all
child-group host lookups unchanged. -/
theorem childLookup_children_eq {f : GroupEntry → GroupEntry}
    (hf : ∀ e, (f e).children = e.children) (inv : Inventory) (g' g c n : String) :
    childLookup (updateA inv g' emptyGroup f) g c n = childLookup inv g c n := by
  unfold childLookup
  by_cases hg : g = g'
  · subst hg
    rw [alookup_updateA_eq]
    cases he : alookup inv g with
    | none => simp [hf, emptyGroup, alookup]
    | some e => simp [hf]
  · rw [alookup_updateA_ne _ _ _ hg]

/-- Child-group lookups pass through `setHost`. -/
theorem childLookup_setHost (inv : Inventory) (g' n' g c n : String) (opts : ConnOpts) :
    childLookup (setHost inv g' n' opts) g c n = childLookup inv g c n := by
  unfold setHost
  apply childLookup_children_eq
  intro e
  rfl

/-- Child-group lookups pass through `setUngroupedVars`. -/
theorem childLookup_setUngroupedVars (inv : Inventory) (vs : List (String × String))
    (g c n : String) : childLookup (setUngroupedVars inv vs) g c n = childLookup inv g c n := by
  unfold setUngroupedVars
  apply childLookup_children_eq
  intro e
  rfl

/-- Setting a child-group host makes it retrievable. -/
theorem childLookup_setChildHost_self (inv : Inventory) (g c n : String)
    (opts : ConnOpts) : childLookup (setChildHost inv g c n opts) g c n = some opts := by
  unfold childLookup setChildHost
  rw [alookup_updateA_eq]
  simp only [Option.some_bind]
  rw [alookup_updateA_eq]
  simp [alookup_pyInsert_eq]

/-- Setting any child-group host with its canonical connection options
preserves every canonical child-group host fact already present. -/
theorem childLookup_setChildHost_canon {inv : Inventory} {g c n : String}
    {co : String → ConnOpts} (g' c' n' : String)
    (h : childLookup inv g c n = some (co n)) :
    childLookup (setChildHost inv g' c' n' (co n')) g c n = some (co n) := by
  by_cases hg : g = g'
  · subst hg
    unfold childLookup setChildHost
    unfold childLookup at h
    rw [alookup_updateA_eq]
    cases he : alookup inv g with
    | none => rw [he] at h; simp at h
    | some e =>
      rw [he] at h
      simp only [Option.some_bind] at h
      simp only [Option.getD_some, Option.some_bind]
      by_cases hc : c = c'
      · subst hc
        rw [alookup_updateA_eq]
        cases hcs : alookup e.children c with
        | none => rw [hcs] at h; simp at h
        | some hs =>
          rw [hcs] at h
          simp only [Option.some_bind] at h
          simp only [Option.getD_some, Option.some_bind]
          by_cases hn : n = n'
          · subst hn
            rw [alookup_pyInsert_eq]
          · rw [alookup_pyInsert_ne _ _ hn]
            exact h
      · rw [alookup_updateA_ne _ _ _ hc]
        exact h
  · unfold childLookup setChildHost
    unfold childLookup at h
    rw [alookup_updateA_ne _ _ _ hg]
    exact h

/-- Canonical host facts survive `addGroup`. -/
theorem hostLookup_addGroup_canon (cfg : MoleculeCfg) {co : String → ConnOpts}
    (p : Platform) {inv : Inventory} {g n : String} (g' : String)
    (h : hostLookup inv g n = some (co n)) :
    hostLookup (addGroup cfg co p inv g') g n = some (co n) := by
  unfold addGroup
  refine foldl_preserve _ (fun i => hostLookup i g n = some (co n)) _ _
    (fun i c hi => by simpa only [hostLookup_setChildHost] using hi) ?_
  simp only [hostLookup_setUngroupedVars]
  exact hostLookup_setHost_canon g' p.name h

/-- Processing a group establishes the canonical host fact for it. -/
theorem hostLookup_addGroup_self (cfg : MoleculeCfg) (co : String → ConnOpts)
    (p : Platform) (inv : Inventory) (g : String) :
    hostLookup (addGroup cfg co p inv g) g p.name = some (co p.name) := by
  unfold addGroup
  refine foldl_preserve _ (fun i => hostLookup i g p.name = some (co p.name)) _ _
    (fun i c hi => by simpa only [hostLookup_setChildHost] using hi) ?_
  simp only [hostLookup_setUngroupedVars]
  exact hostLookup_setHost_self inv g p.name (co p.name)

/-- Canonical child-group host facts survive `addGroup`. -/
theorem childLookup_addGroup_canon (cfg : MoleculeCfg) {co : String → ConnOpts}
    (p : Platform) {inv : Inventory} {g c n : String} (g' : String)
    (h : childLookup inv g c n = some (co n)) :
    childLookup (addGroup cfg co p inv g') g c n = some (co n) := by
  unfold addGroup
  refine foldl_preserve _ (fun i => childLookup i g c n = some (co n)) _ _
    (fun i c' hi => childLookup_setChildHost_canon g' c' p.name hi) ?_
  simp only [childLookup_setUngroupedVars, childLookup_setHost]
  exact h

/-- Processing a group establishes the canonical child-group host fact for
every declared child of the platform. -/
theorem childLookup_addGroup_self (cfg : MoleculeCfg) (co : String → ConnOpts)
    (p : Platform) (inv : Inventory) {g c : String} (hc : c ∈ effChildren p) :
    childLookup (addGroup cfg co p inv g) g c p.name = some (co p.name) := by
  unfold addGroup
  refine foldl_establish _ (fun i => childLookup i g c p.name = some (co p.name)) c _ _
    hc (fun i => childLookup_setChildHost_self i g c p.name (co p.name))
    (fun i c' hi => childLookup_setChildHost_canon g c' p.name hi)

/-- Canonical host facts survive `addPlatform`. -/
theorem hostLookup_addPlatform_canon (cfg : MoleculeCfg) {co : String → ConnOpts}
    {inv : Inventory} {g n : String} (q : Platform)
    (h : hostLookup inv g n = some (co n)) :
    hostLookup (addPlatform cfg co inv q) g n = some (co n) :=
  foldl_preserve _ (fun i => hostLookup i g n = some (co n)) _ _
    (fun i g' hi => hostLookup_addGroup_canon cfg q g' hi) h

/-- Canonical child-group host facts survive `addPlatform`. -/
theorem childLookup_addPlatform_canon (cfg : MoleculeCfg) {co : String → ConnOpts}
    {inv : Inventory} {g c n : String} (q : Platform)
    (h : childLookup inv g c n = some (co n)) :
    childLookup (addPlatform cfg co inv q) g c n = some (co n) :=
  foldl_preserve _ (fun i => childLookup i g c n = some (co n)) _ _
    (fun i g' hi => childLookup_addGroup_canon cfg q g' hi) h

/-- Processing a platform establishes the canonical host fact for each of
its effective groups. -/
theorem hostLookup_addPlatform_self (cfg : MoleculeCfg) (co : String → ConnOpts)
    (inv : Inventory) (p : Platform) {g : String} (hg : g ∈ effGroups p) :
    hostLookup (addPlatform cfg co inv p) g p.name = some (co p.name) :=
  foldl_establish _ (fun i => hostLookup i g p.name = some (co p.name)) g _ _
    hg (fun i => hostLookup_addGroup_self cfg co p i g)
    (fun i g' hi => hostLookup_addGroup_canon cfg p g' hi)

/-- Processing a platform establishes the canonical child-group host fact
for each effective group and declared child. -/
theorem childLookup_addPlatform_self (cfg : MoleculeCfg) (co : String → ConnOpts)
    (inv : Inventory) (p : Platform) {g c : String} (hg : g ∈ effGroups p)
    (hc : c ∈ effChildren p) :
    childLookup (addPlatform cfg co inv p) g c p.name = some (co p.name) :=
  foldl_establish _ (fun i => childLookup i g c p.name = some (co p.name)) g _ _
    hg (fun i => childLookup_addGroup_self cfg co p i hc)
    (fun i g' hi => childLookup_addGroup_canon cfg p g' hi)

/-- Every instance appears with its connection options under every one of
its effective groups in the built inventory. -/
theorem inventory_hosts (cfg : MoleculeCfg) (co : String → ConnOpts)
    (platforms : List Platform) {p : Platform} {g : String}
    (hp : p ∈ platforms) (hg : g ∈ effGroups p) :
    hostLookup (inventory cfg co platforms) g p.name = some (co p.name) :=
  foldl_establish _ (fun i => hostLookup i g p.name = some (co p.name)) p _ _
    hp (fun i => hostLookup_addPlatform_self cfg co i p hg)
    (fun i q hi => hostLookup_addPlatform_canon cfg q hi)

/-- Every instance appears with its connection options under
`children[c].hosts` of each of its effective groups, for each declared
child group `c`. -/
theorem inventory_children (cfg : MoleculeCfg) (co : String → ConnOpts)
    (platforms : List Platform) {p : Platform} {g c : String}
    (hp : p ∈ platforms) (hg : g ∈ effGroups p) (hc : c ∈ effChildren p) :
    childLookup (inventory cfg co platforms) g c p.name = some (co p.name) :=
  foldl_establish _ (fun i => childLookup i g c p.name = some (co p.name)) p _ _
    hp (fun i => childLookup_addPlatform_self cfg co i p hg hc)
    (fun i q hi => childLookup_addPlatform_canon cfg q hi)

/-- Suffixing with a fixed scenario name is injective on instance names. -/
theorem instance_with_scenario_name_inj {a b s : String}
    (h : instance_with_scenario_name a s = instance_with_scenario_name b s) : a = b := by
  unfold instance_with_scenario_name at h
  have hd := congrArg String.data h
  simp only [String.data_append] at hd
  exact String.ext (List.append_cancel_right (List.append_cancel_right hd))

/-- Updating at a fresh key appends the binding at the end. -/
theorem updateA_of_not_mem {α : Type} {l : List (String × α)} {k : String} (dflt : α)
    (f : α → α) (h : ∀ kv ∈ l, kv.1 ≠ k) : updateA l k dflt f = l ++ [(k, f dflt)] := by
  induction l with
  | nil => rfl
  | cons hd tl ih =>
    obtain ⟨k', v'⟩ := hd
    have hne : k' ≠ k := h (k', v') (List.mem_cons_self _ _)
    simp only [updateA, if_neg hne, List.cons_append, List.cons.injEq, true_and]
    exact ih (fun kv hkv => h kv (List.mem_cons_of_mem _ hkv))

/-- Assigning a fresh key appends the binding at the end. -/
theorem pyInsert_of_not_mem {α : Type} {l : List (String × α)} {k : String} (v : α)
    (h : ∀ kv ∈ l, kv.1 ≠ k) : pyInsert l k v = l ++ [(k, v)] :=
  updateA_of_not_mem v _ h

/-- Invariant of the key-rewriting loop of `add_or_update_vars`: with the
keys already processed collected in `pre`, processing the remaining keys
`post` turns the working dict `post ++ suffixKeys pre` into
`suffixKeys (pre ++ post)`, provided all keys are distinct and no suffixed
name collides with an original key. -/
theorem rewrite_loop_aux (s : String) (post : List (String × JVal)) :
    ∀ pre : List (String × JVal),
    (((pre ++ post).map Prod.fst).Nodup) →
    (∀ k1 ∈ (pre ++ post).map Prod.fst, ∀ k2 ∈ (pre ++ post).map Prod.fst,
        instance_with_scenario_name k1 s ≠ k2) →
    post.foldl (fun vt kv => rewriteStep s vt kv.1) (post ++ suffixKeys pre s)
      = suffixKeys (pre ++ post) s := by
  induction post with
  | nil => intro pre _ _; simp [suffixKeys]
  | cons kv post' ih =>
    intro pre hnd hfresh
    obtain ⟨k, v⟩ := kv
    have hkmem : k ∈ (pre ++ (k, v) :: post').map Prod.fst := by
      simp
    have hstep :
        rewriteStep s (((k, v) :: post') ++ suffixKeys pre s) k
          = post' ++ suffixKeys (pre ++ [(k, v)]) s := by
      have hlook : alookup (((k, v) :: post') ++ suffixKeys pre s) k = some v := by
        simp [alookup]
      have hrem : removeKey (((k, v) :: post') ++ suffixKeys pre s) k
          = post' ++ suffixKeys pre s := by
        simp [removeKey]
      have hfreshk : ∀ kv2 ∈ post' ++ suffixKeys pre s,
          kv2.1 ≠ instance_with_scenario_name k s := by
        intro kv2 hkv2
        rcases List.mem_append.mp hkv2 with hin | hin
        · intro hc
          exact hfresh k hkmem kv2.1
            (by simp only [List.map_append, List.map_cons]
                exact List.mem_append.mpr (Or.inr (List.mem_cons_of_mem _
                  (List.mem_map_of_mem _ hin)))) hc.symm
        · obtain ⟨⟨k1, v1⟩, hk1, hk1eq⟩ := List.mem_map.mp hin
          intro hc
          rw [← hk1eq] at hc
          have hk1k : k1 = k := instance_with_scenario_name_inj hc
          subst hk1k
          have : k1 ∉ (pre.map Prod.fst) := by
            have hnd2 := hnd
            rw [List.map_append, List.nodup_append] at hnd2
            exact fun hmem => hnd2.2.2 hmem (by simp)
          exact this (List.mem_map_of_mem _ hk1)
      rw [rewriteStep, hlook, hrem]
      show pyInsert (post' ++ suffixKeys pre s) (instance_with_scenario_name k s) v = _
      rw [pyInsert_of_not_mem _ hfreshk]
      simp [suffixKeys, List.append_assoc]
    have hperm : (pre ++ [(k, v)]) ++ post' = pre ++ (k, v) :: post' := by
      simp
    calc ((k, v) :: post').foldl (fun vt kv2 => rewriteStep s vt kv2.1)
          (((k, v) :: post') ++ suffixKeys pre s)
        = post'.foldl (fun vt kv2 => rewriteStep s vt kv2.1)
            (rewriteStep s (((k, v) :: post') ++ suffixKeys pre s) k) := rfl
      _ = post'.foldl (fun vt kv2 => rewriteStep s vt kv2.1)
            (post' ++ suffixKeys (pre ++ [(k, v)]) s) := by rw [hstep]
      _ = suffixKeys ((pre ++ [(k, v)]) ++ post') s := by
            refine ih (pre ++ [(k, v)]) ?_ ?_
            · rw [hperm]; exact hnd
            · rw [hperm]; exact hfresh
      _ = suffixKeys (pre ++ (k, v) :: post') s := by rw [hperm]

/-- When keys are distinct and no suffixed name collides with an original
key, the rewriting loop of `add_or_update_vars` suffixes every key once and
preserves values and order. -/
theorem rewriteKeys_eq (hv : List (String × JVal)) (s : String)
    (hnd : (hv.map Prod.fst).Nodup)
    (hfresh : ∀ k1 ∈ hv.map Prod.fst, ∀ k2 ∈ hv.map Prod.fst,
        instance_with_scenario_name k1 s ≠ k2) :
    rewriteKeys hv s = suffixKeys hv s := by
  unfold rewriteKeys
  have h := rewrite_loop_aux s hv [] hnd hfresh
  rw [show suffixKeys [] s = [] from rfl, List.append_nil, List.nil_append] at h
  exact h

/-- The empty string is a left identity of string append. -/
theorem str_empty_append (s : String) : "" ++ s = s :=
  String.ext (by simp [String.data_append])

/-- A section line occurs inside the rendering of its section. -/
theorem sectionLines_mem {kvs : List (String × JVal)} {k : String} {v : JVal}
    (h : (k, v) ∈ kvs) :
    ∃ b c, sectionLines kvs = b ++ ((k ++ " = " ++ pyStr v ++ "\n") ++ c) := by
  induction kvs with
  | nil => cases h
  | cons kv rest ih =>
    rcases List.mem_cons.mp h with hh | hh
    · refine ⟨"", sectionLines rest, ?_⟩
      rw [← hh]
      rw [str_empty_append]
      rfl
    · obtain ⟨b, c, hb⟩ := ih hh
      refine ⟨kv.1 ++ " = " ++ pyStr kv.2 ++ "\n" ++ b, c, ?_⟩
      show kv.1 ++ " = " ++ pyStr kv.2 ++ "\n" ++ sectionLines rest = _
      rw [hb]
      simp [String.append_assoc]

/-- A section header and its lines occur inside the full rendering. -/
theorem render_mem {co : List (String × List (String × JVal))} {sname : String}
    {d : List (String × JVal)} (h : (sname, d) ∈ co) :
    ∃ a c, renderConfigTemplate co
      = a ++ (("[" ++ sname ++ "]\n" ++ sectionLines d) ++ c) := by
  induction co with
  | nil => cases h
  | cons sec rest ih =>
    rcases List.mem_cons.mp h with hh | hh
    · refine ⟨"", renderConfigTemplate rest, ?_⟩
      rw [← hh]
      rw [str_empty_append]
      rfl
    · obtain ⟨a, c, ha⟩ := ih hh
      refine ⟨"[" ++ sec.1 ++ "]\n" ++ sectionLines sec.2 ++ a, c, ?_⟩
      show "[" ++ sec.1 ++ "]\n" ++ sectionLines sec.2 ++ renderConfigTemplate rest = _
      rw [ha]
      simp [String.append_assoc]

/-- C1 (amended): for every platform list containing at least one record
whose effective groups list (the `groups` field, default `["ungrouped"]`) is
non-empty, the inventory is non-empty, and for every platform record and
every group g in its effective groups, inventory[g].hosts[name] equals the
driver connection options for that name. -/
theorem claim_C1_inventory (cfg : MoleculeCfg) (co : String → ConnOpts)
    (platforms : List Platform) (p₀ : Platform) (hp₀ : p₀ ∈ platforms)
    (hg₀ : effGroups p₀ ≠ []) :
    inventory cfg co platforms ≠ [] ∧
    ∀ p ∈ platforms, ∀ g ∈ effGroups p,
      hostLookup (inventory cfg co platforms) g p.name = some (co p.name) := by
  constructor
  · obtain ⟨g, hg⟩ := List.exists_mem_of_ne_nil _ hg₀
    exact ne_nil_of_hostLookup (inventory_hosts cfg co platforms hp₀ hg)
  · intro p hp g hg
    exact inventory_hosts cfg co platforms hp hg

/-- C1 witness: a single platform with defaulted groups yields a non-empty
inventory carrying its connection options. -/
theorem claim_C1_inventory_witness :
    inventory cfgEx coEx [pEx1] ≠ [] ∧
    ∀ p ∈ [pEx1], ∀ g ∈ effGroups p,
      hostLookup (inventory cfgEx coEx [pEx1]) g p.name = some (coEx p.name) :=
  claim_C1_inventory cfgEx coEx [pEx1] pEx1 (List.mem_cons_self _ _) (by decide)

/-- C1 counterexample: a one-record platform list whose record has an
explicitly empty `groups` list produces an empty inventory, refuting the
claim that any non-empty platform list yields a non-empty inventory. -/
theorem claim_C1_counterexample :
    [pEmptyGroups] ≠ ([] : List Platform) ∧
    inventory cfgEx coEx [pEmptyGroups] = [] :=
  ⟨List.cons_ne_nil _ _, rfl⟩

/-- C2: with an empty platform list `write_inventory` fails with the fatal
"Instances missing" message and writes no file; with a non-empty inventory
it writes the serialized inventory to the inventory file path. -/
theorem claim_C2_write_inventory (cfg : MoleculeCfg) (co : String → ConnOpts)
    (platforms : List Platform) (dump : Inventory → String) :
    (platforms = [] →
        write_inventory cfg co platforms dump = Except.error missingMsg) ∧
    (inventory cfg co platforms ≠ [] →
        write_inventory cfg co platforms dump
          = Except.ok (inventory_file cfg, dump (inventory cfg co platforms))) := by
  constructor
  · intro h; subst h; rfl
  · intro h
    have hemp : (inventory cfg co platforms).isEmpty = false := by
      cases hI : inventory cfg co platforms with
      | nil => exact absurd hI h
      | cons a l => rfl
    unfold write_inventory
    simp [hemp]

/-- C2 witness: the fatal case at the empty platform list and the success
case at a one-platform list. -/
theorem claim_C2_write_inventory_witness :
    write_inventory cfgEx coEx [] dumpInvEx = Except.error missingMsg ∧
    write_inventory cfgEx coEx [pEx1] dumpInvEx
      = Except.ok (inventory_file cfgEx, dumpInvEx (inventory cfgEx coEx [pEx1])) :=
  ⟨(claim_C2_write_inventory cfgEx coEx [] dumpInvEx).1 rfl,
   (claim_C2_write_inventory cfgEx coEx [pEx1] dumpInvEx).2
     (by intro h; have hl : (inventory cfgEx coEx [pEx1]).length = 1 := rfl
         rw [h] at hl; cases hl)⟩

/-- C3: the dictionary merge returns the defaults under an empty override
mapping and the overrides under empty defaults, recurses at keys where both
values are mappings, lets the override win at keys where either value is
not a mapping, keeps defaults-only keys and adds overrides-only keys.  The
embedding is pure, so neither input can be mutated. -/
theorem claim_C3_merge_dicts (d o : List (String × JVal)) (k : String) :
    mergeList d [] = d ∧
    mergeList [] o = o ∧
    (∀ v ov, alookup d k = some v → alookup o k = some ov →
        alookup (mergeList d o) k = some (mergeVal v ov)) ∧
    (∀ dd oo, mergeVal (JVal.obj dd) (JVal.obj oo) = JVal.obj (mergeList dd oo)) ∧
    (∀ v ov, ((∀ dd, v ≠ JVal.obj dd) ∨ (∀ oo, ov ≠ JVal.obj oo)) →
        mergeVal v ov = ov) ∧
    (alookup d k = none → alookup (mergeList d o) k = alookup o k) ∧
    (alookup o k = none → alookup (mergeList d o) k = alookup d k) := by
  refine ⟨mergeList_nil_right d, mergeList_nil_left o, ?_, ?_, ?_, ?_, ?_⟩
  · intro v ov h1 h2
    exact alookup_mergeList_both h1 h2
  · intro dd oo
    rfl
  · intro v ov h
    cases v with
    | obj dd =>
      cases ov with
      | obj oo =>
        rcases h with h | h
        · exact absurd rfl (h dd)
        · exact absurd rfl (h oo)
      | str s2 => rfl
      | bool b2 => rfl
      | int n2 => rfl
      | null => rfl
    | str s1 => rfl
    | bool b1 => rfl
    | int n1 => rfl
    | null => rfl
  · intro h
    exact alookup_mergeList_right h
  · intro h
    exact alookup_mergeList_left h

/-- C3 witness: at a key mapped to nested mappings on both sides the merge
recurses. -/
theorem claim_C3_merge_dicts_witness :
    alookup (mergeList dC3 oC3) "defaults"
      = some (mergeVal
          (JVal.obj [("retry_files_enabled", JVal.bool false),
                     ("roles_path", JVal.str "x")])
          (JVal.obj [("roles_path", JVal.str "y")])) :=
  ((claim_C3_merge_dicts dC3 oC3 "defaults").2.2.1) _ _ rfl rfl

/-- C4 (amended): provided the host_vars keys are distinct and no key's
scenario-suffixed name coincides with another key of the mapping, every
top-level key is rewritten to `<instance>-<scenario>` with its value
preserved, and exactly one file per rewritten key is written under the
host_vars directory, containing the serialized value. -/
theorem claim_C4_host_vars (cfg : MoleculeCfg) (hv : List (String × JVal))
    (dump : JVal → String) (dirExists : Bool)
    (hnd : (hv.map Prod.fst).Nodup)
    (hfresh : ∀ k1 ∈ hv.map Prod.fst, ∀ k2 ∈ hv.map Prod.fst,
        instance_with_scenario_name k1 cfg.scenarioName ≠ k2)
    (hne : hv ≠ []) :
    add_or_update_vars cfg hv [] dump dirExists VarsTarget.host_vars =
      (if dirExists then [] else
        [FsEffect.mkdir (cfg.ephemeralDirectory ++ "/" ++ "host_vars")]) ++
      hv.map (fun kv => FsEffect.write
        (cfg.ephemeralDirectory ++ "/" ++ "host_vars" ++ "/" ++
          instance_with_scenario_name kv.1 cfg.scenarioName)
        (dump kv.2)) := by
  have hrw := rewriteKeys_eq hv cfg.scenarioName hnd hfresh
  have hemp : (suffixKeys hv cfg.scenarioName).isEmpty = false := by
    cases hv with
    | nil => exact absurd rfl hne
    | cons a l => rfl
  simp only [add_or_update_vars, hrw, targetDirName, hemp]
  simp [suffixKeys, List.map_map, Function.comp]

/-- C4 witness: one host_vars entry is rewritten to its scenario-suffixed
name and written once with its serialized value. -/
theorem claim_C4_host_vars_witness :
    add_or_update_vars cfgEx [("web-01", JVal.obj [("foo", JVal.str "bar")])] []
        dumpEx false VarsTarget.host_vars =
      [FsEffect.mkdir "/project/.molecule/host_vars",
       FsEffect.write "/project/.molecule/host_vars/web-01-default"
         (dumpEx (JVal.obj [("foo", JVal.str "bar")]))] := by
  have h := claim_C4_host_vars cfgEx [("web-01", JVal.obj [("foo", JVal.str "bar")])]
    dumpEx false (by decide) (by decide) (List.cons_ne_nil _ _)
  exact h.trans rfl

/-- C4 counterexample: with keys "a" and "a-default" and scenario "default",
the loop overwrites the value of "a-default" and then re-suffixes it, so
only one file is written for two keys, the value "y" is lost, and key "a"
ends up stored under "a-default-default". -/
theorem claim_C4_counterexample :
    add_or_update_vars cfgEx [("a", JVal.str "x"), ("a-default", JVal.str "y")] []
        dumpEx false VarsTarget.host_vars =
      [FsEffect.mkdir "/project/.molecule/host_vars",
       FsEffect.write "/project/.molecule/host_vars/a-default-default" "x"] := rfl

/-- C5: the stored host_vars configuration is returned unchanged by a call
of `add_or_update_vars('host_vars')` (the code deep-copies it before
rewriting), so a second call with the resulting state reproduces the first
call exactly and never double-suffixes a key across calls. -/
theorem claim_C5_idempotent (cfg : MoleculeCfg) (hv : List (String × JVal))
    (dump : JVal → String) (dirExists : Bool) :
    (add_or_update_host_vars_call cfg hv dump dirExists).1 = hv ∧
    add_or_update_host_vars_call cfg
        (add_or_update_host_vars_call cfg hv dump dirExists).1 dump dirExists
      = add_or_update_host_vars_call cfg hv dump dirExists :=
  ⟨rfl, rfl⟩

/-- C6: the two-platform example produces group web with hosts instance-1
and instance-2, group db with host instance-2 only, and group ungrouped
with the molecule vars mapping populated and no hosts. -/
theorem claim_C6_example :
    alookup (inventory cfgEx coEx platformsC6) "web"
      = some ⟨[("instance-1", coEx "instance-1"),
               ("instance-2", coEx "instance-2")], [], []⟩ ∧
    alookup (inventory cfgEx coEx platformsC6) "db"
      = some ⟨[("instance-2", coEx "instance-2")], [], []⟩ ∧
    alookup (inventory cfgEx coEx platformsC6) "ungrouped"
      = some ⟨[], ungroupedVars cfgEx, []⟩ :=
  ⟨rfl, rfl, rfl⟩

/-- C7 (amended): every instance appears directly under each of its
effective groups, and under each such group's children entry for each child
group the platform declares; nothing is placed under the ungrouped group's
children unless ungrouped is itself an effective group of the platform. -/
theorem claim_C7_groups_children (cfg : MoleculeCfg) (co : String → ConnOpts)
    (platforms : List Platform) :
    ∀ p ∈ platforms, ∀ g ∈ effGroups p,
      hostLookup (inventory cfg co platforms) g p.name = some (co p.name) ∧
      ∀ c ∈ effChildren p,
        childLookup (inventory cfg co platforms) g c p.name = some (co p.name) :=
  fun p hp g hg =>
    ⟨inventory_hosts cfg co platforms hp hg,
     fun c hc => inventory_children cfg co platforms hp hg hc⟩

/-- C7 witness: a platform with group web and child group kids lands under
web.hosts and web.children.kids.hosts. -/
theorem claim_C7_groups_children_witness :
    hostLookup (inventory cfgEx coEx [pChild]) "web" "instance-3"
        = some (coEx "instance-3") ∧
    childLookup (inventory cfgEx coEx [pChild]) "web" "kids" "instance-3"
        = some (coEx "instance-3") := by
  have h := claim_C7_groups_children cfgEx coEx [pChild] pChild
    (List.mem_cons_self _ _) "web" (by decide)
  exact ⟨h.1, h.2 "kids" (by decide)⟩

/-- C7 counterexample: a platform declaring group web appears in the
inventory under web.hosts but not under the ungrouped group's children, so
the claimed invariant that every instance appears under ungrouped.children
per its declared groups fails. -/
theorem claim_C7_counterexample :
    hostLookup (inventory cfgEx coEx [pC7]) "web" "instance-1"
        = some (coEx "instance-1") ∧
    childLookup (inventory cfgEx coEx [pC7]) "ungrouped" "web" "instance-1" = none :=
  ⟨rfl, rfl⟩

/-- C8: rendering the config template with config options containing a
section `defaults` that maps `retry_files_enabled` to the boolean false
yields text with the `[defaults]` header followed by the literal line
`retry_files_enabled = False`. -/
theorem claim_C8_config_render (co : List (String × List (String × JVal)))
    (d : List (String × JVal)) (hsec : ("defaults", d) ∈ co)
    (hkey : ("retry_files_enabled", JVal.bool false) ∈ d) :
    ∃ a b c, renderConfigTemplate co
      = a ++ ("[defaults]\n" ++ (b ++ ("retry_files_enabled = False\n" ++ c))) := by
  obtain ⟨a, c0, h1⟩ := render_mem hsec
  obtain ⟨b, c2, h2⟩ := sectionLines_mem hkey
  refine ⟨a, b, c2 ++ c0, ?_⟩
  rw [h1, h2]
  have hhdr : "[" ++ "defaults" ++ "]\n" = "[defaults]\n" := rfl
  have hline : "retry_files_enabled" ++ " = " ++ pyStr (JVal.bool false) ++ "\n"
      = "retry_files_enabled = False\n" := rfl
  rw [hhdr, hline]
  simp [String.append_assoc]

/-- C8 witness: the one-section, one-key config options. -/
theorem claim_C8_config_render_witness :
    ∃ a b c, renderConfigTemplate
        [("defaults", [("retry_files_enabled", JVal.bool false)])]
      = a ++ ("[defaults]\n" ++ (b ++ ("retry_files_enabled = False\n" ++ c))) :=
  claim_C8_config_render _ _ (List.mem_cons_self _ _) (List.mem_cons_self _ _)

/-- C9: `add_or_update_vars` returns immediately, with no mkdir and no file
write, when the vars mapping for the requested target is empty. -/
theorem claim_C9_empty_noop (cfg : MoleculeCfg) (hostVars groupVars : List (String × JVal))
    (dump : JVal → String) (dirExists : Bool) :
    (hostVars = [] →
      add_or_update_vars cfg hostVars groupVars dump dirExists VarsTarget.host_vars = []) ∧
    (groupVars = [] →
      add_or_update_vars cfg hostVars groupVars dump dirExists VarsTarget.group_vars = []) := by
  constructor
  · intro h; subst h; rfl
  · intro h; subst h; rfl

/-- C9 witness: empty host_vars and empty group_vars each produce no
filesystem effect. -/
theorem claim_C9_empty_noop_witness :
    add_or_update_vars cfgEx [] [("g", JVal.int 1)] dumpEx false
        VarsTarget.host_vars = [] ∧
    add_or_update_vars cfgEx [("h", JVal.int 2)] [] dumpEx false
        VarsTarget.group_vars = [] :=
  ⟨(claim_C9_empty_noop cfgEx [] [("g", JVal.int 1)] dumpEx false).1 rfl,
   (claim_C9_empty_noop cfgEx [("h", JVal.int 2)] [] dumpEx false).2 rfl⟩

/-- C10: `default_options` is the singleton debug mapping exactly when the
CLI debug flag is truthy, and for every override mapping that does not bind
`debug` the merged options contain `debug: True` exactly when the flag is
truthy. -/
theorem claim_C10_debug_flag (args userOpts : List (String × JVal))
    (h : alookup userOpts "debug" = none) :
    (optTruthy (alookup args "debug") = true →
        default_options args = [("debug", JVal.bool true)]) ∧
    (optTruthy (alookup args "debug") = false → default_options args = []) ∧
    (alookup (options args userOpts) "debug" = some (JVal.bool true) ↔
        optTruthy (alookup args "debug") = true) := by
  refine ⟨?_, ?_, ?_⟩
  · intro ht
    simp [default_options, ht]
  · intro hf
    simp [default_options, hf]
  · rw [options, alookup_mergeList_left h]
    cases ht : optTruthy (alookup args "debug") with
    | true => simp [default_options, ht, alookup]
    | false => simp [default_options, ht, alookup]

/-- C10 witness: truthy debug flag and an override mapping without a debug
key yield merged options with debug set. -/
theorem claim_C10_debug_flag_witness :
    alookup (options [("debug", JVal.bool true)] []) "debug"
      = some (JVal.bool true) :=
  (claim_C10_debug_flag [("debug", JVal.bool true)] [] rfl).2.2.mpr rfl

end Molecule
